import Mathlib

/-!
simple_fMOD_B: sound generator and beat tracker.

A shallow embedding of two example programs of the repository:

* `examples/SoundGenerator.cpp`: the waveform functions of class `Generators`
  and the PCM read callback `Generator::PCMRead`;
* `examples/FrequencyAnalysis.cpp`: the constructor, the key handler
  `OnKeyCharacter`, and the spectrum, beat and BPM blocks of `DrawScene`.

Conventions of the embedding.

* `float` and `double` values are rationals. The phase of line 150 of
  `PCMRead` is rounded as the code rounds it (`toFloat`, `toDouble`); the
  other floating operations are taken exactly.
* `int` values are integers; a value stored into an `int` from an unsigned
  clock value, or produced by `int` arithmetic, goes through `wrapInt32`.
* `unsigned int` and `DWORD` values are naturals; unsigned subtraction is
  taken modulo `2 ^ 32` (`tickDiff`).
* `GetTickCount()` is the parameter `now` of every operation that reads the
  clock; all reads inside one call see the same value.
-/

/-- Two's complement reduction of an integer to the range of a 32-bit `int`:
what the conversion from an unsigned value does, and what `int` arithmetic
yields when its exact result leaves the range (C++ leaves that case
undefined; the claims about `int` arithmetic assume the exact result is in
range). -/
def wrapInt32 (x : Int) : Int := (x + 2 ^ 31) % 2 ^ 32 - 2 ^ 31

/-- Two's complement reduction of an integer to the range of a `signed short`. -/
def wrapInt16 (x : Int) : Int := (x + 2 ^ 15) % 2 ^ 16 - 2 ^ 15

/-- Conversion of a floating value to an integer type: the fractional part is
discarded (rounding toward zero). -/
def truncToInt (x : ℚ) : Int := if 0 ≤ x then ⌊x⌋ else ⌈x⌉

/-- The cast `(signed short)x` of a floating value `x`: truncation toward
zero, then reduction to 16 bits. C++ defines the conversion only when the
truncated value is in the range of `signed short`, where the reduction is the
identity. -/
def castShort (x : ℚ) : Int := wrapInt16 (truncToInt x)

/-- Number of halvings that take `n` below 2, counted with `fuel` steps at
most. -/
def halvings : Nat → Nat → Nat
  | 0, _ => 0
  | fuel + 1, n => if n < 2 then 0 else halvings fuel (n / 2) + 1

/-- The position of the leading binary digit of a natural number `n`: the
`k` with `2 ^ k <= n < 2 ^ (k + 1)` for positive `n`. -/
def leadingBit (n : Nat) : Nat := halvings n n

/-- The exponent of a positive rational `a` in binary notation: the integer
`e` with `2 ^ e <= a < 2 ^ (e + 1)`. -/
def binaryExponent (a : ℚ) : Int :=
  let e0 : Int := (leadingBit a.num.natAbs : Int) - (leadingBit a.den : Int)
  if (2 : ℚ) ^ e0 ≤ a then e0 else e0 - 1

/-- Rounding of a rational to the nearest value of a binary floating format
with `prec` significant bits and least exponent `emin`, ties going to the even
significand (the default rounding of IEEE 754). The largest finite value of
the format is not modelled: the values rounded in this file are below
`2 ^ 63` in magnitude. -/
def roundBinary (prec : Nat) (emin : Int) (x : ℚ) : ℚ :=
  if x = 0 then 0
  else
    let a : ℚ := |x|
    let e : Int := max (binaryExponent a) emin
    let ulp : ℚ := (2 : ℚ) ^ (e - ((prec : Int) - 1))
    let q : ℚ := a / ulp
    let r : Int := ⌊q⌋
    let frac : ℚ := q - (r : ℚ)
    let m : Int :=
      if frac < 1 / 2 then r
      else if 1 / 2 < frac then r + 1
      else if r % 2 = 0 then r else r + 1
    if 0 < x then (m : ℚ) * ulp else -((m : ℚ) * ulp)

/-- Rounding to `float` (24 significant bits): the result of a conversion to
`float` and of every arithmetic operation on `float` operands. -/
def toFloat (x : ℚ) : ℚ := roundBinary 24 (-126) x

/-- Rounding to `double` (53 significant bits). -/
def toDouble (x : ℚ) : ℚ := roundBinary 53 (-1022) x

namespace Generators

/-- The waveform function `Generators::Sawtooth`. -/
def Sawtooth (samplePos : ℚ) : ℚ :=
  if samplePos = 0 then 0 else (2 / samplePos) - 1

/-- The waveform function `Generators::Square`. -/
def Square (samplePos : ℚ) : ℚ :=
  if samplePos < 1 / 2 then 1 else -1

end Generators

/-- The data members of class `Generator` that `PCMRead` uses. -/
structure Generator where
  sampleRate : Int
  channels : Int
  lengthInSeconds : Int
  frequency : Int
  volume : ℚ
  generator : ℚ → ℚ
  samplesElapsed : Int

namespace Generator

/-- The value of `pos` after lines 150 and 153 of `PCMRead`. Line 150
computes `frequency * static_cast<float>(samplesElapsed) / sampleRate` in
`float`: the counter and the two other `int` operands are converted to
`float`, and the product and the quotient are each rounded to `float`. Line
153 subtracts the floor in `double`. -/
def samplePos (me : Generator) : ℚ :=
  let pos : ℚ :=
    toFloat (toFloat (toFloat (me.frequency : ℚ) * toFloat (me.samplesElapsed : ℚ))
      / toFloat (me.sampleRate : ℚ))
  toDouble (pos - (⌊pos⌋ : ℚ))

/-- The floating value that lines 159 and 163 of `PCMRead` cast to
`signed short`: `generator(pos) * 32767.0f * volume`. -/
def scaledSample (me : Generator) (pos : ℚ) : ℚ :=
  me.generator pos * 32767 * me.volume

/-- Number of 16-bit values one pass of the loop body writes: the left
channel always, the right channel when `channels == 2`. -/
def slotsPerFrame (me : Generator) : Nat := if me.channels = 2 then 2 else 1

/-- One pass of the loop body of `PCMRead`: the values written through
`stereo16BitBuffer++`, in order, and the generator after `samplesElapsed++`. -/
def PCMReadStep (me : Generator) : List Int × Generator :=
  let pos := me.samplePos
  let left : List Int := [castShort (me.scaledSample pos)]
  let right : List Int := if me.channels = 2 then [castShort (me.scaledSample pos)] else []
  (left ++ right, { me with samplesElapsed := wrapInt32 (me.samplesElapsed + 1) })

/-- The loop of `PCMRead`, run for `n` passes; `buf` holds the values
written so far. -/
def PCMReadLoop : Nat → Generator → List Int → List Int × Generator
  | 0, me, buf => (buf, me)
  | n + 1, me, buf =>
    let r := me.PCMReadStep
    PCMReadLoop n r.2 (buf ++ r.1)

/-- The callback `Generator::PCMRead(sound, data, length)`: the loop runs `length / 4`
passes. The result is the sequence of 16-bit values written to `data`,
starting at its first slot, and the generator afterwards. -/
def PCMRead (me : Generator) (length : Nat) : List Int × Generator :=
  PCMReadLoop (length / 4) me []

/-- Number of bytes of `data` that `PCMRead` writes: two per 16-bit value. -/
def bytesWritten (me : Generator) (length : Nat) : Nat :=
  2 * (me.PCMRead length).1.length

end Generator

/-- The `float` constant `0.3f`, the volume that `main` of
`SoundGenerator.cpp` sets: the `float` nearest to 0.3. -/
def volume03 : ℚ := 5033165 / 16777216

/-- A mono generator as `main` of `SoundGenerator.cpp` would build it with
`channels = 1`: square wave, 800 Hz, 44100 Hz sample rate, volume `0.3f`. -/
def monoGenerator : Generator :=
  { sampleRate := 44100, channels := 1, lengthInSeconds := 5, frequency := 800,
    volume := volume03, generator := Generators.Square, samplesElapsed := 0 }

/-- The generator of `main` in `SoundGenerator.cpp` (two channels), with the
square wave selected. -/
def stereoGenerator : Generator :=
  { sampleRate := 44100, channels := 2, lengthInSeconds := 5, frequency := 800,
    volume := volume03, generator := Generators.Square, samplesElapsed := 0 }

/-- The conversion of a clock value (`DWORD`) to `int` in assignments such as
`beatLastTick = GetTickCount()`. -/
def tickToInt (now : Nat) : Int := wrapInt32 (now : Int)

/-- The unsigned 32-bit difference `GetTickCount() - t` for an `int` operand
`t`, which the subtraction converts to unsigned. -/
def tickDiff (now : Nat) (t : Int) : Nat := (((now : Int) - t) % 2 ^ 32).toNat

/-- The read `spec[i]` of the spectrum array; the index is inside the array
in every call of the source (`beatThresholdBar = 0`, `sampleSize >= 64`), a
read outside it yields 0 here. -/
def specAt (spec : List ℚ) (i : Int) : ℚ := spec.getD i.toNat 0

/-- The data members of class `FrequencyAnalysis` that the key handler and
the beat / BPM blocks use. `paused` is the pause state of `song`, which
`song.TogglePause()` flips and `song.GetPaused()` reads. The queue
`beatTimes` is a list with the front of the queue at its head. -/
structure FrequencyAnalysis where
  paused : Bool
  enableNormalize : Bool
  sampleSize : Int
  beatThresholdVolume : ℚ
  beatThresholdBar : Int
  beatSustain : Nat
  beatPostIgnore : Nat
  beatLastTick : Int
  beatIgnoreLastTick : Int
  beatTimes : List Int
  beatTrackCutoff : Nat
  musicStartTick : Int
deriving DecidableEq

/-- What one pass of `DrawScene` shows of the beat tracker: whether "BEAT" is
drawn (line 170) and the value of `bpmEstimate` (lines 185 to 191), where
`none` stands for the result of the float division `60000 / 0`, which is not a
number of beats. -/
structure BeatState where
  beat : Bool
  bpm : Option ℚ
deriving DecidableEq

namespace FrequencyAnalysis

/-- The state the constructor `FrequencyAnalysis::FrequencyAnalysis` leaves;
`song.Start(true)` starts the song paused. -/
def init : FrequencyAnalysis :=
  { paused := true, enableNormalize := true, sampleSize := 64,
    beatThresholdVolume := 3 / 10, beatThresholdBar := 0,
    beatSustain := 150, beatPostIgnore := 250, beatTrackCutoff := 10000,
    beatLastTick := 0, beatIgnoreLastTick := 0, beatTimes := [],
    musicStartTick := 0 }

/-- The key handler `FrequencyAnalysis::OnKeyCharacter(key, ...)` with the clock at `now`.
Key codes: 'P' = 80, 'p' = 112, 'N' = 78, 'n' = 110, '1' = 49, '2' = 50. The
statement `beatTimes.empty();` of lines 91 and 107 only queries the queue and
changes nothing. -/
def OnKeyCharacter (a : FrequencyAnalysis) (key : Int) (now : Nat) : FrequencyAnalysis :=
  let a1 : FrequencyAnalysis :=
    if key = 80 ∨ key = 112 then
      let t : FrequencyAnalysis := { a with paused := !a.paused }
      if t.musicStartTick = 0 ∧ t.enableNormalize = false ∧ t.paused = false then
        { t with musicStartTick := tickToInt now }
      else if t.paused = true then
        { t with musicStartTick := 0 }
      else t
    else a
  let a2 : FrequencyAnalysis :=
    if key = 78 ∨ key = 110 then
      let t : FrequencyAnalysis := { a1 with enableNormalize := !a1.enableNormalize }
      if t.enableNormalize = false ∧ t.paused = false then
        { t with musicStartTick := tickToInt now }
      else t
    else a1
  let a3 : FrequencyAnalysis :=
    if key = 49 then { a2 with sampleSize := max (Int.tdiv a2.sampleSize 2) 64 } else a2
  if key = 50 then { a3 with sampleSize := min (wrapInt32 (a3.sampleSize * 2)) 8192 } else a3

/-- The loop of lines 161 to 166: the front of the queue is popped while it
lies more than `cutoff` ms before `now`; the loop also ends when the queue
runs empty. -/
def pruneLoop (now cutoff : Nat) : List Int → List Int
  | [] => []
  | t :: rest => if tickDiff now t > cutoff then pruneLoop now cutoff rest else t :: rest

/-- The condition of line 156. -/
def beatTrigger (a : FrequencyAnalysis) (spec : List ℚ) : Prop :=
  specAt spec a.beatThresholdBar ≥ a.beatThresholdVolume ∧ a.beatLastTick = 0 ∧
    a.beatIgnoreLastTick = 0

instance (a : FrequencyAnalysis) (spec : List ℚ) : Decidable (a.beatTrigger spec) := by
  unfold beatTrigger
  infer_instance

/-- Lines 156 to 167 of `DrawScene`: a beat is recorded when the condition
holds. -/
def detectBeat (a : FrequencyAnalysis) (spec : List ℚ) (now : Nat) : FrequencyAnalysis :=
  if a.beatTrigger spec then
    { a with
      beatLastTick := tickToInt now
      beatTimes := pruneLoop now a.beatTrackCutoff (a.beatTimes ++ [tickToInt now]) }
  else a

/-- The condition of line 169, under which "BEAT" is drawn. -/
def beatIndicator (a : FrequencyAnalysis) (now : Nat) : Bool :=
  decide (tickDiff now a.beatLastTick < a.beatSustain)

/-- Lines 169 to 176 of `DrawScene`. -/
def sustainStep (a : FrequencyAnalysis) (now : Nat) : FrequencyAnalysis :=
  if tickDiff now a.beatLastTick < a.beatSustain then a
  else if a.beatIgnoreLastTick = 0 ∧ a.beatLastTick ≠ 0 then
    { a with beatLastTick := 0, beatIgnoreLastTick := tickToInt now }
  else a

/-- Lines 178 and 179 of `DrawScene`. -/
def cooldownStep (a : FrequencyAnalysis) (now : Nat) : FrequencyAnalysis :=
  if tickDiff now a.beatIgnoreLastTick ≥ a.beatPostIgnore then
    { a with beatIgnoreLastTick := 0 }
  else a

/-- Lines 185 to 191 of `DrawScene`: the BPM estimate for a queue of beat
times. The `int` difference `back() - front()` is divided by the float
`size() - 1`, and 60000 by the quotient. -/
def bpmEstimate (beatTimes : List Int) : Option ℚ :=
  if 2 ≤ beatTimes.length then
    let msPerBeat : ℚ :=
      (wrapInt32 (beatTimes.getLastD 0 - beatTimes.headD 0) : ℚ) /
        ((beatTimes.length - 1 : Nat) : ℚ)
    if msPerBeat = 0 then none else some (60000 / msPerBeat)
  else some 0

/-- The beat block (lines 153 to 180) and the BPM block (lines 182 to 191) of
`DrawScene`, with `spec` the spectrum array as it stands at line 153 and the
clock at `now`: the tracker afterwards and what the pass shows. -/
def Tick (a : FrequencyAnalysis) (spec : List ℚ) (now : Nat) : FrequencyAnalysis × BeatState :=
  if a.enableNormalize = false then
    let a1 := a.detectBeat spec now
    let a2 := (a1.sustainStep now).cooldownStep now
    (a2, { beat := a1.beatIndicator now, bpm := bpmEstimate a2.beatTimes })
  else
    (a, { beat := false, bpm := bpmEstimate a.beatTimes })

/-- The tracker after a sequence of passes of `DrawScene`, each given as the
clock value and the spectrum of the pass. -/
def runTicks (a : FrequencyAnalysis) : List (Nat × List ℚ) → FrequencyAnalysis
  | [] => a
  | (now, spec) :: rest => runTicks (a.Tick spec now).1 rest

/-- Lines 138 and 139 of `DrawScene`: `spec[i]` is the mean of the left and
the right channel's magnitude. The three arrays hold `sampleSize` values. -/
def averageSpectrum (specLeft specRight : List ℚ) : List ℚ :=
  List.zipWith (fun l r => (l + r) / 2) specLeft specRight

/-- The comparison step of `std::max_element`: the running largest value `m`
gives way to the next value `w` when `m < w`. -/
def maxStep (m w : ℚ) : ℚ := if m < w then w else m

/-- Lines 142 and 143 of `DrawScene`: `maxVol`, the value at the iterator
`std::max_element` returns. The array is never empty in the source
(`sampleSize >= 64`); for the empty list the value is 0 here. -/
def maxVol : List ℚ → ℚ
  | [] => 0
  | v :: rest => rest.foldl maxStep v

/-- Lines 147 and 148 of `DrawScene`: with normalization enabled and a maximum
other than zero, `std::transform` replaces every value `dB` of the array by
`dB / maxVol`; otherwise the array is left as it is. -/
def normalizeSpectrum (a : FrequencyAnalysis) (spec : List ℚ) : List ℚ :=
  if a.enableNormalize = true ∧ maxVol spec ≠ 0 then
    spec.map (fun dB => dB / maxVol spec)
  else spec

/-- One pass of `DrawScene` (lines 129 to 191) with the clock at `now`, given
the two spectra that `getSpectrum` delivers: the tracker afterwards, what the
pass shows of it, and the array `spec` that is drawn. -/
def DrawScene (a : FrequencyAnalysis) (specLeft specRight : List ℚ) (now : Nat) :
    FrequencyAnalysis × BeatState × List ℚ :=
  let spec := normalizeSpectrum a (averageSpectrum specLeft specRight)
  let r := a.Tick spec now
  (r.1, r.2, spec)

/-- The tracker after a sequence of key presses handled by `OnKeyCharacter`,
each given as the key code and the clock value at the press. -/
def runKeys (a : FrequencyAnalysis) : List (Int × Nat) → FrequencyAnalysis
  | [] => a
  | (key, now) :: rest => runKeys (a.OnKeyCharacter key now) rest

end FrequencyAnalysis

/-- What the application's main loop hands to a `FrequencyAnalysis` object: a
pass of `DrawScene` (given here by the spectrum at line 153 and the clock
value) or a key press. -/
inductive TrackerEvent where
  | tick (now : Nat) (spec : List ℚ)
  | key (key : Int) (now : Nat)

namespace FrequencyAnalysis

/-- The tracker after one event. -/
def handleEvent (a : FrequencyAnalysis) : TrackerEvent → FrequencyAnalysis
  | TrackerEvent.tick now spec => (a.Tick spec now).1
  | TrackerEvent.key key now => a.OnKeyCharacter key now

/-- The tracker after a sequence of events. -/
def runEvents (a : FrequencyAnalysis) : List TrackerEvent → FrequencyAnalysis
  | [] => a
  | e :: rest => runEvents (a.handleEvent e) rest

end FrequencyAnalysis

/-- The constructor's tracker with normalization switched off. -/
def trackerStart : FrequencyAnalysis :=
  { FrequencyAnalysis.init with enableNormalize := false }

/-- A paused tracker with normalization off whose beat, recorded at clock
value 1000, is still active and in the queue. -/
def pausedAfterBeat : FrequencyAnalysis :=
  { trackerStart with beatLastTick := 1000, beatTimes := [1000] }

/-- An idle tracker whose queue holds a beat recorded at clock value 0 and a
newer one recorded at 500. -/
def twoBeatTracker : FrequencyAnalysis :=
  { trackerStart with beatTimes := [0, 500] }

/-- A tracker whose active beat was recorded 100 ms before the 32-bit clock
wrapped around (the clock value `2 ^ 32 - 100`, stored in an `int` as -100). -/
def wrappedBeatTracker : FrequencyAnalysis :=
  { trackerStart with beatLastTick := -100, beatTimes := [-100] }

/-! ## Rounding: lemmas -/

theorem wrapInt32_of_range (x : Int) (h1 : -2 ^ 31 ≤ x) (h2 : x < 2 ^ 31) : wrapInt32 x = x := by
  unfold wrapInt32
  omega

theorem wrapInt16_of_range (x : Int) (h1 : -32768 ≤ x) (h2 : x ≤ 32767) : wrapInt16 x = x := by
  unfold wrapInt16
  omega

theorem wrapInt16_range (x : Int) : -32768 ≤ wrapInt16 x ∧ wrapInt16 x ≤ 32767 := by
  unfold wrapInt16
  omega

theorem truncToInt_natCast_bound (x : ℚ) (n : Nat) (h1 : -(n : ℚ) ≤ x) (h2 : x ≤ (n : ℚ)) :
    -(n : Int) ≤ truncToInt x ∧ truncToInt x ≤ (n : Int) := by
  unfold truncToInt
  split
  · rename_i h0
    constructor
    · have : (0 : Int) ≤ ⌊x⌋ := Int.floor_nonneg.mpr h0
      omega
    · have h3 : ((⌊x⌋ : Int) : ℚ) ≤ (n : ℚ) := le_trans (Int.floor_le x) h2
      exact_mod_cast h3
  · rename_i h0
    have h0 : x < 0 := lt_of_not_ge h0
    constructor
    · have h3 : ((-(n : Int) : Int) : ℚ) ≤ ((⌈x⌉ : Int) : ℚ) := by
        push_cast
        exact le_trans h1 (Int.le_ceil x)
      exact_mod_cast h3
    · have : ⌈x⌉ ≤ 0 := Int.ceil_le.mpr (by simpa using h0.le)
      omega

theorem Generators.Square_range (p : ℚ) : -1 ≤ Generators.Square p ∧ Generators.Square p ≤ 1 := by
  unfold Generators.Square
  split <;> norm_num

theorem Generators.Sawtooth_gt_one (p : ℚ) (h0 : 0 < p) (h1 : p < 1) : 1 < Generators.Sawtooth p := by
  unfold Generators.Sawtooth
  rw [if_neg (ne_of_gt h0)]
  have : 2 < 2 / p := by
    rw [lt_div_iff₀ h0]
    linarith
  linarith

namespace Generator

theorem PCMReadStep_length (me : Generator) : me.PCMReadStep.1.length = me.slotsPerFrame := by
  unfold PCMReadStep slotsPerFrame
  by_cases h : me.channels = 2 <;> simp [h]

theorem PCMReadStep_slots (me : Generator) : me.PCMReadStep.2.slotsPerFrame = me.slotsPerFrame := rfl

theorem PCMReadLoop_fst (n : Nat) (me : Generator) (buf : List Int) :
    (PCMReadLoop n me buf).1 = buf ++ (PCMReadLoop n me []).1 := by
  induction n generalizing me buf with
  | zero => simp [PCMReadLoop]
  | succ n ih =>
    simp only [PCMReadLoop]
    rw [ih me.PCMReadStep.2 (buf ++ me.PCMReadStep.1), ih me.PCMReadStep.2 ([] ++ me.PCMReadStep.1)]
    simp

theorem PCMReadLoop_length (n : Nat) (me : Generator) :
    (PCMReadLoop n me []).1.length = n * me.slotsPerFrame := by
  induction n generalizing me with
  | zero => simp [PCMReadLoop]
  | succ n ih =>
    simp only [PCMReadLoop]
    rw [PCMReadLoop_fst, List.length_append, ih, PCMReadStep_slots, List.nil_append,
      PCMReadStep_length]
    ring

theorem bytesWritten_eq (me : Generator) (length : Nat) :
    me.bytesWritten length = 2 * ((length / 4) * me.slotsPerFrame) := by
  unfold bytesWritten PCMRead
  rw [PCMReadLoop_length]

/-- The sibling path of the mono case: with two channels and a length that is
a multiple of four, `PCMRead` fills the whole buffer. -/
theorem bytesWritten_stereo (me : Generator) (length : Nat) (hch : me.channels = 2)
    (hlen : length % 4 = 0) : me.bytesWritten length = length := by
  rw [bytesWritten_eq]
  simp only [slotsPerFrame, hch, if_true]
  omega

/-- With a channel count other than two, `PCMRead` fills `2 * (length / 4)`
bytes: at most half of the buffer. -/
theorem bytesWritten_not_stereo (me : Generator) (length : Nat) (hch : me.channels ≠ 2) :
    me.bytesWritten length = 2 * (length / 4) := by
  rw [bytesWritten_eq]
  simp only [slotsPerFrame, hch, if_false]
  omega

theorem PCMReadLoop_mem (n : Nat) (me : Generator) (buf : List Int) (v : Int)
    (hv : v ∈ (PCMReadLoop n me buf).1) :
    v ∈ buf ∨ ∃ pos, v = castShort (me.scaledSample pos) := by
  induction n generalizing me buf with
  | zero => left; simpa [PCMReadLoop] using hv
  | succ n ih =>
    simp only [PCMReadLoop] at hv
    rcases ih me.PCMReadStep.2 _ hv with h | ⟨pos, h⟩
    · rcases List.mem_append.mp h with h | h
      · left; exact h
      · right
        refine ⟨me.samplePos, ?_⟩
        unfold PCMReadStep at h
        by_cases hch : me.channels = 2 <;> simp [hch] at h <;> exact h
    · right
      exact ⟨pos, h⟩

end Generator

/-! ## Beat tracker: lemmas -/

theorem tickToInt_of_lt (now : Nat) (h : now < 2 ^ 31) : tickToInt now = (now : Int) := by
  unfold tickToInt
  apply wrapInt32_of_range <;> omega

theorem tickDiff_tickToInt (now : Nat) : tickDiff now (tickToInt now) = 0 := by
  unfold tickDiff tickToInt wrapInt32
  omega

theorem tickDiff_zero (now : Nat) (h : now < 2 ^ 32) : tickDiff now 0 = now := by
  unfold tickDiff
  omega

theorem tickToInt_eq_zero (now : Nat) (h : now < 2 ^ 32) (h0 : tickToInt now = 0) : now = 0 := by
  unfold tickToInt wrapInt32 at h0
  omega

theorem List.append_singleton_eq_cons_self {α : Type} (r : List α) (x t : α)
    (h : r ++ [t] = x :: r) : x = t := by
  induction r generalizing x with
  | nil => simpa using h.symm
  | cons y r ih =>
    simp only [List.cons_append, List.cons.injEq] at h
    obtain ⟨hyx, hr⟩ := h
    have := ih y hr
    rw [← hyx, this]

namespace FrequencyAnalysis

theorem pruneLoop_cons_stale (now cutoff : Nat) (x : Int) (r : List Int)
    (h : tickDiff now x > cutoff) : pruneLoop now cutoff (x :: r) = pruneLoop now cutoff r := by
  rw [pruneLoop, if_pos h]

theorem pruneLoop_cons_fresh (now cutoff : Nat) (x : Int) (r : List Int)
    (h : ¬ tickDiff now x > cutoff) : pruneLoop now cutoff (x :: r) = x :: r := by
  rw [pruneLoop, if_neg h]

theorem pruneLoop_suffix (now cutoff : Nat) (l : List Int) : pruneLoop now cutoff l <:+ l := by
  induction l with
  | nil => simp [pruneLoop]
  | cons x r ih =>
    unfold pruneLoop
    split
    · exact ih.trans (List.suffix_cons x r)
    · exact List.suffix_refl _

/-- The entry pushed at `now` survives the pruning loop: the loop only drops
entries from the front of the old queue. -/
theorem pruneLoop_push (now cutoff : Nat) (q : List Int) :
    ∃ j, j ≤ q.length ∧ pruneLoop now cutoff (q ++ [tickToInt now]) = q.drop j ++ [tickToInt now] := by
  induction q with
  | nil =>
    refine ⟨0, le_refl _, ?_⟩
    simp [pruneLoop, tickDiff_tickToInt]
  | cons x r ih =>
    by_cases hx : tickDiff now x > cutoff
    · obtain ⟨j, hj, h⟩ := ih
      refine ⟨j + 1, by simpa using hj, ?_⟩
      rw [List.cons_append, pruneLoop_cons_stale now cutoff x _ hx, List.drop_succ_cons]
      exact h
    · refine ⟨0, Nat.zero_le _, ?_⟩
      rw [List.cons_append, pruneLoop_cons_fresh now cutoff x _ hx]
      rfl

theorem pruneLoop_push_ne (now cutoff : Nat) (q : List Int) :
    pruneLoop now cutoff (q ++ [tickToInt now]) ≠ q := by
  cases q with
  | nil => simp [pruneLoop, tickDiff_tickToInt]
  | cons x r =>
    by_cases hx : tickDiff now x > cutoff
    · rw [List.cons_append, pruneLoop_cons_stale now cutoff x _ hx]
      intro h
      have hsuf := pruneLoop_suffix now cutoff (r ++ [tickToInt now])
      have hlen : (pruneLoop now cutoff (r ++ [tickToInt now])).length
          = (r ++ [tickToInt now]).length := by
        rw [h]; simp
      have heq := hsuf.eq_of_length hlen
      rw [h] at heq
      have hxt := List.append_singleton_eq_cons_self r x (tickToInt now) heq.symm
      rw [hxt, tickDiff_tickToInt] at hx
      omega
    · rw [List.cons_append, pruneLoop_cons_fresh now cutoff x _ hx]
      intro h
      have := congrArg List.length h
      simp at this

theorem sustainStep_beatTimes (a : FrequencyAnalysis) (now : Nat) :
    (a.sustainStep now).beatTimes = a.beatTimes := by
  unfold sustainStep
  split
  · rfl
  · split <;> rfl

theorem cooldownStep_beatTimes (a : FrequencyAnalysis) (now : Nat) :
    (a.cooldownStep now).beatTimes = a.beatTimes := by
  unfold cooldownStep
  split <;> rfl

theorem cooldownStep_beatLastTick (a : FrequencyAnalysis) (now : Nat) :
    (a.cooldownStep now).beatLastTick = a.beatLastTick := by
  unfold cooldownStep
  split <;> rfl

theorem Tick_beatTimes (a : FrequencyAnalysis) (spec : List ℚ) (now : Nat)
    (hn : a.enableNormalize = false) :
    (a.Tick spec now).1.beatTimes = (a.detectBeat spec now).beatTimes := by
  simp only [Tick, hn, if_true, cooldownStep_beatTimes, sustainStep_beatTimes]

theorem Tick_of_normalize (a : FrequencyAnalysis) (spec : List ℚ) (now : Nat)
    (hn : a.enableNormalize = true) : (a.Tick spec now).1 = a := by
  simp [Tick, hn]

theorem detectBeat_of_trigger (a : FrequencyAnalysis) (spec : List ℚ) (now : Nat)
    (h : a.beatTrigger spec) :
    a.detectBeat spec now = { a with
      beatLastTick := tickToInt now
      beatTimes := pruneLoop now a.beatTrackCutoff (a.beatTimes ++ [tickToInt now]) } := by
  simp [detectBeat, h]

theorem detectBeat_of_not_trigger (a : FrequencyAnalysis) (spec : List ℚ) (now : Nat)
    (h : ¬ a.beatTrigger spec) : a.detectBeat spec now = a := by
  simp [detectBeat, h]

/-- A pass records a beat, that is changes the queue, exactly when the
condition of line 156 holds. -/
theorem detectBeat_beatTimes_ne_iff (a : FrequencyAnalysis) (spec : List ℚ) (now : Nat) :
    (a.detectBeat spec now).beatTimes ≠ a.beatTimes ↔ a.beatTrigger spec := by
  by_cases h : a.beatTrigger spec
  · rw [detectBeat_of_trigger a spec now h]
    simp only [h, iff_true]
    exact pruneLoop_push_ne now a.beatTrackCutoff a.beatTimes
  · rw [detectBeat_of_not_trigger a spec now h]
    simp [h]

theorem sustainStep_of_lt (a : FrequencyAnalysis) (now : Nat)
    (h : tickDiff now a.beatLastTick < a.beatSustain) : a.sustainStep now = a := by
  rw [sustainStep, if_pos h]

theorem sustainStep_of_expired (a : FrequencyAnalysis) (now : Nat)
    (h1 : ¬ tickDiff now a.beatLastTick < a.beatSustain) (h2 : a.beatIgnoreLastTick = 0)
    (h3 : a.beatLastTick ≠ 0) :
    a.sustainStep now = { a with beatLastTick := 0, beatIgnoreLastTick := tickToInt now } := by
  rw [sustainStep, if_neg h1, if_pos ⟨h2, h3⟩]

theorem sustainStep_of_idle (a : FrequencyAnalysis) (now : Nat)
    (h : ¬ (a.beatIgnoreLastTick = 0 ∧ a.beatLastTick ≠ 0)) : a.sustainStep now = a := by
  unfold sustainStep
  by_cases h1 : tickDiff now a.beatLastTick < a.beatSustain
  · rw [if_pos h1]
  · rw [if_neg h1, if_neg h]

theorem cooldownStep_of_zero (a : FrequencyAnalysis) (now : Nat)
    (h : a.beatIgnoreLastTick = 0) : a.cooldownStep now = a := by
  unfold cooldownStep
  split
  · cases a
    simp only at h
    subst h
    rfl
  · rfl

theorem cooldownStep_of_lt (a : FrequencyAnalysis) (now : Nat)
    (h : tickDiff now a.beatIgnoreLastTick < a.beatPostIgnore) : a.cooldownStep now = a := by
  rw [cooldownStep, if_neg (by omega)]

theorem cooldownStep_of_ge (a : FrequencyAnalysis) (now : Nat)
    (h : a.beatPostIgnore ≤ tickDiff now a.beatIgnoreLastTick) :
    a.cooldownStep now = { a with beatIgnoreLastTick := 0 } := by
  rw [cooldownStep, if_pos h]

theorem Tick_of_not_normalize (a : FrequencyAnalysis) (spec : List ℚ) (now : Nat)
    (hn : a.enableNormalize = false) :
    a.Tick spec now =
      (((a.detectBeat spec now).sustainStep now).cooldownStep now,
        { beat := (a.detectBeat spec now).beatIndicator now,
          bpm := bpmEstimate (((a.detectBeat spec now).sustainStep now).cooldownStep now).beatTimes }) := by
  simp [Tick, hn]

/-- Tick at `T`, magnitude 0.5, from the constructor's tracker. -/
theorem scenario_step1 (T : Nat) (s : List ℚ) (hT2 : T < 2 ^ 31) (h0 : specAt s 0 = 1 / 2) :
    trackerStart.Tick s T =
      ({ trackerStart with beatLastTick := (T : Int), beatTimes := [(T : Int)] },
        { beat := true, bpm := some 0 }) := by
  have e1 : tickToInt T = (T : Int) := tickToInt_of_lt T hT2
  have e2 : tickDiff T (T : Int) = 0 := by rw [← e1]; exact tickDiff_tickToInt T
  have htrig : trackerStart.beatTrigger s := by
    refine ⟨?_, rfl, rfl⟩
    show (3 / 10 : ℚ) ≤ specAt s 0
    rw [h0]; norm_num
  rw [Tick_of_not_normalize _ _ _ rfl, detectBeat_of_trigger _ _ _ htrig, e1]
  have hp : pruneLoop T trackerStart.beatTrackCutoff (trackerStart.beatTimes ++ [(T : Int)])
      = [(T : Int)] := by
    show pruneLoop T 10000 [(T : Int)] = [(T : Int)]
    rw [pruneLoop_cons_fresh _ _ _ _ (by rw [e2]; omega)]
  rw [hp, sustainStep_of_lt _ _ (by show tickDiff T (T : Int) < 150; rw [e2]; omega),
    cooldownStep_of_zero _ _ rfl]
  refine Prod.ext rfl ?_
  simp [beatIndicator, e2, bpmEstimate, trackerStart, init]

/-- Tick at `T + 100`, any spectrum, with the beat of `T` active. -/
theorem scenario_step2 (T : Nat) (s : List ℚ) (hT : 0 < T) (hT2 : T + 410 < 2 ^ 31) :
    ({ trackerStart with beatLastTick := (T : Int), beatTimes := [(T : Int)] }
      : FrequencyAnalysis).Tick s (T + 100) =
      ({ trackerStart with beatLastTick := (T : Int), beatTimes := [(T : Int)] },
        { beat := true, bpm := some 0 }) := by
  have e2 : tickDiff (T + 100) (T : Int) = 100 := by unfold tickDiff; omega
  have hT0 : (T : Int) ≠ 0 := by omega
  rw [Tick_of_not_normalize _ _ _ rfl,
    detectBeat_of_not_trigger _ _ _ (fun h => hT0 h.2.1),
    sustainStep_of_lt _ _ (by show tickDiff (T + 100) (T : Int) < 150; rw [e2]; omega),
    cooldownStep_of_zero _ _ rfl]
  refine Prod.ext rfl ?_
  simp [beatIndicator, e2, bpmEstimate, trackerStart, init]

/-- Tick at `T + 160`, any spectrum, with the beat of `T` active. -/
theorem scenario_step3 (T : Nat) (s : List ℚ) (hT : 0 < T) (hT2 : T + 410 < 2 ^ 31) :
    (({ trackerStart with beatLastTick := (T : Int), beatTimes := [(T : Int)] }
      : FrequencyAnalysis).Tick s (T + 160)).1 =
      { trackerStart with beatIgnoreLastTick := (T : Int) + 160, beatTimes := [(T : Int)] } := by
  have e1 : tickToInt (T + 160) = (T : Int) + 160 := by
    rw [tickToInt_of_lt _ (by omega)]; push_cast; rfl
  have e2 : tickDiff (T + 160) (T : Int) = 160 := by unfold tickDiff; omega
  have e3 : tickDiff (T + 160) ((T : Int) + 160) = 0 := by unfold tickDiff; omega
  have hT0 : (T : Int) ≠ 0 := by omega
  rw [Tick_of_not_normalize _ _ _ rfl,
    detectBeat_of_not_trigger _ _ _ (fun h => hT0 h.2.1),
    sustainStep_of_expired _ _ (by show ¬ tickDiff (T + 160) (T : Int) < 150; rw [e2]; omega)
      rfl hT0, e1,
    cooldownStep_of_lt _ _ (by show tickDiff (T + 160) ((T : Int) + 160) < 250; rw [e3]; omega)]
  rfl

/-- Tick at `T + 200`, any spectrum, during the cooldown begun at `T + 160`. -/
theorem scenario_step4 (T : Nat) (s : List ℚ) (hT2 : T + 410 < 2 ^ 31) :
    (({ trackerStart with beatIgnoreLastTick := (T : Int) + 160, beatTimes := [(T : Int)] }
      : FrequencyAnalysis).Tick s (T + 200)).1 =
      { trackerStart with beatIgnoreLastTick := (T : Int) + 160, beatTimes := [(T : Int)] } := by
  have e3 : tickDiff (T + 200) ((T : Int) + 160) = 40 := by unfold tickDiff; omega
  have hI : (T : Int) + 160 ≠ 0 := by omega
  rw [Tick_of_not_normalize _ _ _ rfl,
    detectBeat_of_not_trigger _ _ _ (fun h => hI h.2.2),
    sustainStep_of_idle _ _ (fun h => hI h.1),
    cooldownStep_of_lt _ _ (by show tickDiff (T + 200) ((T : Int) + 160) < 250; rw [e3]; omega)]

/-- Tick at `T + 410`, any spectrum, during the cooldown begun at `T + 160`. -/
theorem scenario_step5 (T : Nat) (s : List ℚ) (hT2 : T + 410 < 2 ^ 31) :
    (({ trackerStart with beatIgnoreLastTick := (T : Int) + 160, beatTimes := [(T : Int)] }
      : FrequencyAnalysis).Tick s (T + 410)).1 =
      { trackerStart with beatTimes := [(T : Int)] } := by
  have e3 : tickDiff (T + 410) ((T : Int) + 160) = 250 := by unfold tickDiff; omega
  have hI : (T : Int) + 160 ≠ 0 := by omega
  rw [Tick_of_not_normalize _ _ _ rfl,
    detectBeat_of_not_trigger _ _ _ (fun h => hI h.2.2),
    sustainStep_of_idle _ _ (fun h => hI h.1),
    cooldownStep_of_ge _ _ (by show 250 ≤ tickDiff (T + 410) ((T : Int) + 160); rw [e3])]
  rfl

/-- Pruning at a clock value past the cutoff removes every entry 0 from a
time-ordered queue of non-negative entries; `tail` stands for what was
pushed behind them. -/
theorem pruneLoop_no_zero (now cutoff : Nat) (q tail : List Int) (hnow : now < 2 ^ 32)
    (hcut : cutoff < now) (hsorted : q.Pairwise (fun x y => x ≤ y)) (hnonneg : ∀ t ∈ q, 0 ≤ t)
    (htail : (0 : Int) ∉ tail) : (0 : Int) ∉ pruneLoop now cutoff (q ++ tail) := by
  induction q with
  | nil =>
    intro h
    exact htail ((pruneLoop_suffix now cutoff tail).subset h)
  | cons x r ih =>
    rw [List.pairwise_cons] at hsorted
    by_cases hx : tickDiff now x > cutoff
    · rw [List.cons_append, pruneLoop_cons_stale now cutoff x _ hx]
      exact ih hsorted.2 (fun t ht => hnonneg t (List.mem_cons_of_mem x ht))
    · rw [List.cons_append, pruneLoop_cons_fresh now cutoff x _ hx]
      have hx0 : x ≠ 0 := by
        intro h0
        rw [h0, tickDiff_zero now hnow] at hx
        omega
      have hxpos : 0 < x := by
        have := hnonneg x (List.mem_cons_self x r)
        omega
      intro h
      rcases List.mem_cons.mp h with h | h
      · exact hx0 h.symm
      · rcases List.mem_append.mp h with h | h
        · have := hsorted.1 0 h
          omega
        · exact htail h

/-- Why the clock must be past the sustain duration for two Ticks to agree:
the idle sentinel 0 is read as a beat time by the test of line 169. Here the
first Tick, 100 ms after the clock wrapped, ends the sustain of a beat
recorded before the wrap and shows no beat; the second Tick at the same clock
value records nothing and shows the beat. -/
theorem Tick_twice_differs_after_wrap :
    (wrappedBeatTracker.Tick [0] 100).2.beat = false ∧
    ((wrappedBeatTracker.Tick [0] 100).1.Tick [0] 100).2.beat = true ∧
    ((wrappedBeatTracker.Tick [0] 100).1.Tick [0] 100).1.beatTimes
      = (wrappedBeatTracker.Tick [0] 100).1.beatTimes := by
  decide!

/-! ### Normalization -/

theorem foldl_maxStep_ge (l : List ℚ) (m : ℚ) : m ≤ l.foldl maxStep m := by
  induction l generalizing m with
  | nil => exact le_refl m
  | cons w r ih =>
    rw [List.foldl_cons]
    refine le_trans ?_ (ih (maxStep m w))
    unfold maxStep
    split
    · rename_i h; exact h.le
    · exact le_refl m

theorem foldl_maxStep_upper (l : List ℚ) (m : ℚ) : ∀ v ∈ l, v ≤ l.foldl maxStep m := by
  induction l generalizing m with
  | nil => intro v hv; simp at hv
  | cons w r ih =>
    intro v hv
    rw [List.foldl_cons]
    rcases List.mem_cons.mp hv with h | h
    · rw [h]
      refine le_trans ?_ (foldl_maxStep_ge r (maxStep m w))
      unfold maxStep
      split
      · exact le_refl w
      · rename_i hlt; exact not_lt.mp hlt
    · exact ih (maxStep m w) v h

theorem foldl_maxStep_mem (l : List ℚ) (m : ℚ) :
    l.foldl maxStep m = m ∨ l.foldl maxStep m ∈ l := by
  induction l generalizing m with
  | nil => left; rfl
  | cons w r ih =>
    rw [List.foldl_cons]
    rcases ih (maxStep m w) with h | h
    · rw [h]
      unfold maxStep
      split
      · right; exact List.mem_cons_self w r
      · left; rfl
    · right; exact List.mem_cons_of_mem w h

theorem maxVol_upper (spec : List ℚ) : ∀ v ∈ spec, v ≤ maxVol spec := by
  cases spec with
  | nil => intro v hv; simp at hv
  | cons w r =>
    intro v hv
    show v ≤ r.foldl maxStep w
    rcases List.mem_cons.mp hv with h | h
    · rw [h]; exact foldl_maxStep_ge r w
    · exact foldl_maxStep_upper r w v h

theorem maxVol_mem (spec : List ℚ) (h : spec ≠ []) : maxVol spec ∈ spec := by
  cases spec with
  | nil => exact absurd rfl h
  | cons w r =>
    show r.foldl maxStep w ∈ w :: r
    rcases foldl_maxStep_mem r w with h1 | h1
    · rw [h1]; exact List.mem_cons_self w r
    · exact List.mem_cons_of_mem w h1

/-- The value `maxVol` of the source is the maximum of the array. -/
theorem maxVol_eq_of_max (spec : List ℚ) (m : ℚ) (hm : m ∈ spec)
    (hmax : ∀ v ∈ spec, v ≤ m) : maxVol spec = m := by
  have hne : spec ≠ [] := List.ne_nil_of_mem hm
  exact le_antisymm (hmax _ (maxVol_mem spec hne)) (maxVol_upper spec m hm)

theorem DrawScene_spec (a : FrequencyAnalysis) (specLeft specRight : List ℚ) (now : Nat) :
    (a.DrawScene specLeft specRight now).2.2
      = normalizeSpectrum a (averageSpectrum specLeft specRight) := rfl

theorem DrawScene_tracker (a : FrequencyAnalysis) (specLeft specRight : List ℚ) (now : Nat) :
    (a.DrawScene specLeft specRight now).1
      = (a.Tick (normalizeSpectrum a (averageSpectrum specLeft specRight)) now).1 := rfl

/-! ### Sample size keys -/

theorem OnKeyCharacter_decrease (a : FrequencyAnalysis) (now : Nat) :
    (a.OnKeyCharacter 49 now).sampleSize = max (Int.tdiv a.sampleSize 2) 64 := by
  simp [OnKeyCharacter]

theorem OnKeyCharacter_increase (a : FrequencyAnalysis) (now : Nat) :
    (a.OnKeyCharacter 50 now).sampleSize = min (wrapInt32 (a.sampleSize * 2)) 8192 := by
  simp [OnKeyCharacter]

/-- On the sample sizes `2 ^ 6` to `2 ^ 13`, key '1' halves the size except at
64 and key '2' doubles it except at 8192. -/
theorem sampleSize_keys_of_pow (a : FrequencyAnalysis) (now e : Nat) (h6 : 6 ≤ e)
    (h13 : e ≤ 13) (hs : a.sampleSize = 2 ^ e) :
    (a.OnKeyCharacter 49 now).sampleSize = (if e = 6 then 2 ^ 6 else 2 ^ (e - 1)) ∧
    (a.OnKeyCharacter 50 now).sampleSize = (if e = 13 then 2 ^ 13 else 2 ^ (e + 1)) := by
  rw [OnKeyCharacter_decrease, OnKeyCharacter_increase, hs]
  interval_cases e <;> decide

theorem runKeys_sampleSize_pow (keys : List (Int × Nat)) (a : FrequencyAnalysis)
    (hkeys : ∀ k ∈ keys, k.1 = 49 ∨ k.1 = 50)
    (ha : ∃ e : Nat, 6 ≤ e ∧ e ≤ 13 ∧ a.sampleSize = 2 ^ e) :
    ∃ e : Nat, 6 ≤ e ∧ e ≤ 13 ∧ (a.runKeys keys).sampleSize = 2 ^ e := by
  induction keys generalizing a with
  | nil => exact ha
  | cons k rest ih =>
    obtain ⟨key, now⟩ := k
    obtain ⟨e, h6, h13, hs⟩ := ha
    have hstep := sampleSize_keys_of_pow a now e h6 h13 hs
    apply ih (a.OnKeyCharacter key now) (fun k hk => hkeys k (List.mem_cons_of_mem _ hk))
    rcases hkeys (key, now) (List.mem_cons_self _ _) with hk | hk
    · have hk : key = 49 := hk
      subst hk
      by_cases he : e = 6
      · exact ⟨6, by omega, by omega, by rw [hstep.1, if_pos he]⟩
      · exact ⟨e - 1, by omega, by omega, by rw [hstep.1, if_neg he]⟩
    · have hk : key = 50 := hk
      subst hk
      by_cases he : e = 13
      · exact ⟨13, by omega, by omega, by rw [hstep.2, if_pos he]⟩
      · exact ⟨e + 1, by omega, by omega, by rw [hstep.2, if_neg he]⟩

/-! ### The two windows -/

theorem detectBeat_windows (a : FrequencyAnalysis) (spec : List ℚ) (now : Nat)
    (h : a.beatLastTick = 0 ∨ a.beatIgnoreLastTick = 0) :
    (a.detectBeat spec now).beatLastTick = 0 ∨ (a.detectBeat spec now).beatIgnoreLastTick = 0 := by
  by_cases ht : a.beatTrigger spec
  · rw [detectBeat_of_trigger a spec now ht]
    right
    exact ht.2.2
  · rw [detectBeat_of_not_trigger a spec now ht]
    exact h

theorem sustainStep_windows (a : FrequencyAnalysis) (now : Nat)
    (h : a.beatLastTick = 0 ∨ a.beatIgnoreLastTick = 0) :
    (a.sustainStep now).beatLastTick = 0 ∨ (a.sustainStep now).beatIgnoreLastTick = 0 := by
  unfold sustainStep
  split
  · exact h
  · split
    · left; rfl
    · exact h

theorem cooldownStep_windows (a : FrequencyAnalysis) (now : Nat)
    (h : a.beatLastTick = 0 ∨ a.beatIgnoreLastTick = 0) :
    (a.cooldownStep now).beatLastTick = 0 ∨ (a.cooldownStep now).beatIgnoreLastTick = 0 := by
  unfold cooldownStep
  split
  · right; rfl
  · exact h

theorem Tick_windows (a : FrequencyAnalysis) (spec : List ℚ) (now : Nat)
    (h : a.beatLastTick = 0 ∨ a.beatIgnoreLastTick = 0) :
    (a.Tick spec now).1.beatLastTick = 0 ∨ (a.Tick spec now).1.beatIgnoreLastTick = 0 := by
  by_cases hn : a.enableNormalize = true
  · rw [Tick_of_normalize a spec now hn]
    exact h
  · have hn : a.enableNormalize = false := by simpa using hn
    rw [Tick_of_not_normalize a spec now hn]
    exact cooldownStep_windows _ now (sustainStep_windows _ now (detectBeat_windows a spec now h))

theorem OnKeyCharacter_beatLastTick (a : FrequencyAnalysis) (key : Int) (now : Nat) :
    (a.OnKeyCharacter key now).beatLastTick = a.beatLastTick := by
  unfold OnKeyCharacter
  simp only []
  split_ifs <;> rfl

theorem OnKeyCharacter_beatIgnoreLastTick (a : FrequencyAnalysis) (key : Int) (now : Nat) :
    (a.OnKeyCharacter key now).beatIgnoreLastTick = a.beatIgnoreLastTick := by
  unfold OnKeyCharacter
  simp only []
  split_ifs <;> rfl

theorem runEvents_windows (events : List TrackerEvent) (a : FrequencyAnalysis)
    (h : a.beatLastTick = 0 ∨ a.beatIgnoreLastTick = 0) :
    (a.runEvents events).beatLastTick = 0 ∨ (a.runEvents events).beatIgnoreLastTick = 0 := by
  induction events generalizing a with
  | nil => exact h
  | cons e rest ih =>
    apply ih
    cases e with
    | tick now spec => exact Tick_windows a spec now h
    | key key now =>
      show (a.OnKeyCharacter key now).beatLastTick = 0 ∨
        (a.OnKeyCharacter key now).beatIgnoreLastTick = 0
      rw [OnKeyCharacter_beatLastTick, OnKeyCharacter_beatIgnoreLastTick]
      exact h

end FrequencyAnalysis

/-! ## Sound generator: claims -/

/-- C1 (defect of the code): a generator with one channel, asked to fill a
buffer of 4 bytes (a multiple of its frame size of 2 bytes), writes 2 bytes
only, since the loop of `PCMRead` always counts `length / 4` frames. -/
theorem PCMRead_mono_fills_half :
    monoGenerator.channels = 1 ∧ 4 % (2 * 1) = 0 ∧
      monoGenerator.bytesWritten 4 = 2 ∧ monoGenerator.bytesWritten 4 ≠ 4 := by
  decide

/-- C3: when the waveform function takes its values in `[-1, 1]` and the
volume lies in `[0, 1]`, the value `generator(pos) * 32767 * volume` truncated
toward zero lies in `[-32768, 32767]` at every position, the 16-bit cast
leaves it as it is, and every value that `PCMRead` writes is such a value. -/
theorem PCMRead_sample_range (me : Generator)
    (hg : ∀ p, -1 ≤ me.generator p ∧ me.generator p ≤ 1)
    (hv0 : 0 ≤ me.volume) (hv1 : me.volume ≤ 1) :
    (∀ pos : ℚ, -32768 ≤ truncToInt (me.generator pos * 32767 * me.volume) ∧
      truncToInt (me.generator pos * 32767 * me.volume) ≤ 32767 ∧
      castShort (me.generator pos * 32767 * me.volume)
        = truncToInt (me.generator pos * 32767 * me.volume)) ∧
    (∀ (length : Nat) (v : Int), v ∈ (me.PCMRead length).1 →
      -32768 ≤ v ∧ v ≤ 32767 ∧
      ∃ pos : ℚ, v = truncToInt (me.generator pos * 32767 * me.volume)) := by
  have key : ∀ pos : ℚ, -32768 ≤ truncToInt (me.generator pos * 32767 * me.volume) ∧
      truncToInt (me.generator pos * 32767 * me.volume) ≤ 32767 ∧
      castShort (me.generator pos * 32767 * me.volume)
        = truncToInt (me.generator pos * 32767 * me.volume) := by
    intro pos
    obtain ⟨h1, h2⟩ := hg pos
    have hb := truncToInt_natCast_bound (me.generator pos * 32767 * me.volume) 32767
      (by push_cast; nlinarith) (by push_cast; nlinarith)
    have hlo : -32768 ≤ truncToInt (me.generator pos * 32767 * me.volume) := by
      have := hb.1
      omega
    have hhi : truncToInt (me.generator pos * 32767 * me.volume) ≤ 32767 := by
      have := hb.2
      omega
    exact ⟨hlo, hhi, wrapInt16_of_range _ hlo hhi⟩
  refine ⟨key, ?_⟩
  intro length v hv
  rcases Generator.PCMReadLoop_mem (length / 4) me [] v hv with h | ⟨pos, h⟩
  · simp at h
  · obtain ⟨h1, h2, h3⟩ := key pos
    have hv' : v = truncToInt (me.generator pos * 32767 * me.volume) := by
      rw [h]; exact h3
    exact ⟨by rw [hv']; exact h1, by rw [hv']; exact h2, pos, hv'⟩

theorem PCMRead_sample_range_witness :
    (∀ p, -1 ≤ stereoGenerator.generator p ∧ stereoGenerator.generator p ≤ 1) ∧
    0 ≤ stereoGenerator.volume ∧ stereoGenerator.volume ≤ 1 ∧
    ∀ (length : Nat) (v : Int), v ∈ (stereoGenerator.PCMRead length).1 →
      -32768 ≤ v ∧ v ≤ 32767 ∧
      ∃ pos : ℚ, v = truncToInt (stereoGenerator.generator pos * 32767 * stereoGenerator.volume) :=
  ⟨Generators.Square_range, by norm_num [stereoGenerator, volume03],
    by norm_num [stereoGenerator, volume03],
    (PCMRead_sample_range stereoGenerator Generators.Square_range
      (by norm_num [stereoGenerator, volume03]) (by norm_num [stereoGenerator, volume03])).2⟩

/-- C4 (defect of the code): at the phase 1/2, inside `[0, 1)`,
`Generators::Sawtooth` returns 3, which is outside `[-1, 1]`. -/
theorem Sawtooth_half_out_of_range :
    (0 : ℚ) ≤ 1 / 2 ∧ (1 / 2 : ℚ) < 1 ∧ Generators.Sawtooth (1 / 2) = 3 ∧
      ¬ (Generators.Sawtooth (1 / 2) ≤ 1) := by
  norm_num [Generators.Sawtooth]

/-! ## Beat tracker: claims -/

/-- C5: with normalization disabled, a Tick records a new beat (changes the
queue) if and only if `spec[beatThresholdBar] >= beatThresholdVolume`,
`beatLastTick` is 0 and `beatIgnoreLastTick` is 0. When it records, the trigger
block sets `beatLastTick` to the clock value (which it still holds at the end
of the Tick when the sustain is not zero) and the queue after the Tick is the
old queue, less some entries dropped from its front, with the clock value
appended at the back. The `int` stored is the clock value itself below
`2 ^ 31`. -/
theorem Tick_records_iff (a : FrequencyAnalysis) (spec : List ℚ) (now : Nat)
    (hn : a.enableNormalize = false) :
    ((a.Tick spec now).1.beatTimes ≠ a.beatTimes ↔
      (a.beatThresholdVolume ≤ specAt spec a.beatThresholdBar ∧ a.beatLastTick = 0 ∧
        a.beatIgnoreLastTick = 0)) ∧
    ((a.Tick spec now).1.beatTimes ≠ a.beatTimes →
      (a.detectBeat spec now).beatLastTick = tickToInt now ∧
      (0 < a.beatSustain → (a.Tick spec now).1.beatLastTick = tickToInt now) ∧
      ∃ j, j ≤ a.beatTimes.length ∧
        (a.Tick spec now).1.beatTimes = a.beatTimes.drop j ++ [tickToInt now]) ∧
    (now < 2 ^ 31 → tickToInt now = (now : Int)) := by
  have hiff : (a.Tick spec now).1.beatTimes ≠ a.beatTimes ↔ a.beatTrigger spec := by
    rw [FrequencyAnalysis.Tick_beatTimes a spec now hn]
    exact FrequencyAnalysis.detectBeat_beatTimes_ne_iff a spec now
  refine ⟨hiff, ?_, tickToInt_of_lt now⟩
  intro hrec
  have htrig := hiff.mp hrec
  have hd := FrequencyAnalysis.detectBeat_of_trigger a spec now htrig
  refine ⟨by rw [hd], ?_, ?_⟩
  · intro hs
    simp only [FrequencyAnalysis.Tick, hn, if_true, FrequencyAnalysis.cooldownStep_beatLastTick]
    rw [hd]
    simp [FrequencyAnalysis.sustainStep, tickDiff_tickToInt, hs]
  · rw [FrequencyAnalysis.Tick_beatTimes a spec now hn, hd]
    exact FrequencyAnalysis.pruneLoop_push now a.beatTrackCutoff a.beatTimes

theorem Tick_records_iff_witness :
    trackerStart.enableNormalize = false ∧
    ((trackerStart.Tick [1 / 2] 1000).1.beatTimes ≠ trackerStart.beatTimes ↔
      (trackerStart.beatThresholdVolume ≤ specAt [1 / 2] trackerStart.beatThresholdBar ∧
        trackerStart.beatLastTick = 0 ∧ trackerStart.beatIgnoreLastTick = 0)) :=
  ⟨rfl, (Tick_records_iff trackerStart [1 / 2] 1000 rfl).1⟩

/-- C6 (the claim fails at the start time 0): from the constructor's tracker
with normalization off, after the Ticks at 0 (magnitude 0.5), 100 and 160 the
tracker is not in the cooldown (`beatIgnoreLastTick` is 0, not 160), whether
the Ticks at 100 and 160 see silence or the magnitude 0.5; and the Tick at 200
with magnitude 0.9 records a new beat. A beat recorded at clock value 0 stores
0 in `beatLastTick`, which is the idle sentinel. -/
theorem scenario_at_zero_fails :
    (trackerStart.runTicks [(0, [1 / 2]), (100, [0]), (160, [0])]).beatIgnoreLastTick = 0 ∧
    (trackerStart.runTicks [(0, [1 / 2]), (100, [0]), (160, [0])]).beatIgnoreLastTick ≠ 160 ∧
    (trackerStart.runTicks [(0, [1 / 2]), (100, [1 / 2]), (160, [1 / 2])]).beatIgnoreLastTick
      ≠ 160 ∧
    (trackerStart.runTicks [(0, [1 / 2]), (100, [0]), (160, [0])]).beatTimes = [0] ∧
    (trackerStart.runTicks [(0, [1 / 2]), (100, [0]), (160, [0]), (200, [9 / 10])]).beatTimes
      = [0, 200] := by
  decide!

/-- C6 (amended): from the constructor's tracker with normalization off
(threshold 0.3, sustain 150, post-ignore 250), for every start time `T > 0`
with `T + 410 < 2 ^ 31` and whatever the spectra of the second, third and
fifth Tick: the Tick at `T` with magnitude 0.5 makes the beat active
(`beatLastTick = T`, indicator on); the Tick at `T + 100` leaves it active;
the Tick at `T + 160` clears `beatLastTick` and sets
`beatIgnoreLastTick = T + 160`; the Tick at `T + 200` with magnitude 0.9
records no beat and changes nothing; the Tick at `T + 410` ends the cooldown,
leaving the tracker idle. -/
theorem scenario_from_start (T : Nat) (s0 s1 s2 s3 s4 : List ℚ)
    (hT : 0 < T) (hT2 : T + 410 < 2 ^ 31)
    (h0 : specAt s0 0 = 1 / 2) (_h3 : specAt s3 0 = 9 / 10) :
    trackerStart.runTicks [(T, s0)]
      = { trackerStart with beatLastTick := (T : Int), beatTimes := [(T : Int)] } ∧
    (trackerStart.Tick s0 T).2.beat = true ∧
    trackerStart.runTicks [(T, s0), (T + 100, s1)]
      = { trackerStart with beatLastTick := (T : Int), beatTimes := [(T : Int)] } ∧
    ((trackerStart.runTicks [(T, s0)]).Tick s1 (T + 100)).2.beat = true ∧
    trackerStart.runTicks [(T, s0), (T + 100, s1), (T + 160, s2)]
      = { trackerStart with beatIgnoreLastTick := (T : Int) + 160, beatTimes := [(T : Int)] } ∧
    trackerStart.runTicks [(T, s0), (T + 100, s1), (T + 160, s2), (T + 200, s3)]
      = { trackerStart with beatIgnoreLastTick := (T : Int) + 160, beatTimes := [(T : Int)] } ∧
    trackerStart.runTicks [(T, s0), (T + 100, s1), (T + 160, s2), (T + 200, s3), (T + 410, s4)]
      = { trackerStart with beatTimes := [(T : Int)] } := by
  have hTlt : T < 2 ^ 31 := by omega
  have e1 := FrequencyAnalysis.scenario_step1 T s0 hTlt h0
  have e2 := FrequencyAnalysis.scenario_step2 T s1 hT hT2
  have e3 := FrequencyAnalysis.scenario_step3 T s2 hT hT2
  have e4 := FrequencyAnalysis.scenario_step4 T s3 hT2
  have e5 := FrequencyAnalysis.scenario_step5 T s4 hT2
  have r1 : trackerStart.runTicks [(T, s0)]
      = { trackerStart with beatLastTick := (T : Int), beatTimes := [(T : Int)] } := by
    simp only [FrequencyAnalysis.runTicks, e1]
  refine ⟨r1, ?_, ?_, ?_, ?_, ?_, ?_⟩
  · rw [e1]
  · simp only [FrequencyAnalysis.runTicks, e1, e2]
  · rw [r1, e2]
  · simp only [FrequencyAnalysis.runTicks, e1, e2, e3]
  · simp only [FrequencyAnalysis.runTicks, e1, e2, e3, e4]
  · simp only [FrequencyAnalysis.runTicks, e1, e2, e3, e4, e5]

theorem scenario_from_start_witness :
    0 < 1000 ∧ 1000 + 410 < 2 ^ 31 ∧ specAt [1 / 2] 0 = 1 / 2 ∧ specAt [9 / 10] 0 = 9 / 10 ∧
    trackerStart.runTicks
        [(1000, [1 / 2]), (1000 + 100, [0]), (1000 + 160, [0]), (1000 + 200, [9 / 10]),
          (1000 + 410, [0])]
      = { trackerStart with beatTimes := [((1000 : Nat) : Int)] } :=
  ⟨by decide, by decide, rfl, rfl,
    (scenario_from_start 1000 [1 / 2] [0] [0] [9 / 10] [0] (by decide) (by decide) rfl
      rfl).2.2.2.2.2.2⟩

/-- C8 (the claim fails): with the cutoff of 10000 ms and normalization off,
after beats recorded at 0 and at 500, a Tick at 10001 that sees silence
records no beat and leaves the timestamp 0 in the queue. -/
theorem Tick_keeps_stale_beat :
    trackerStart.beatTrackCutoff = 10000 ∧ trackerStart.enableNormalize = false ∧
    (trackerStart.runTicks [(0, [1 / 2]), (500, [1 / 2])]).beatTimes = [0, 500] ∧
    (trackerStart.runTicks [(0, [1 / 2]), (500, [1 / 2]), (10001, [0])]).beatTimes = [0, 500] ∧
    (0 : Int) ∈ (trackerStart.runTicks [(0, [1 / 2]), (500, [1 / 2]), (10001, [0])]).beatTimes := by
  decide!

/-- C8 (amended): with the cutoff of 10000 ms and normalization off, for a
time-ordered queue of non-negative timestamps, a Tick at a clock value of at
least 10001 (below `2 ^ 32`) that records a beat (the monitored magnitude is
at or above the threshold while the tracker is idle) leaves no timestamp 0 in
the queue. -/
theorem Tick_prunes_zero (a : FrequencyAnalysis) (spec : List ℚ) (now : Nat)
    (hn : a.enableNormalize = false) (hc : a.beatTrackCutoff = 10000)
    (h1 : 10001 ≤ now) (h2 : now < 2 ^ 32)
    (hsorted : a.beatTimes.Pairwise (fun x y => x ≤ y)) (hnonneg : ∀ t ∈ a.beatTimes, 0 ≤ t)
    (htrig : a.beatThresholdVolume ≤ specAt spec a.beatThresholdBar ∧ a.beatLastTick = 0 ∧
      a.beatIgnoreLastTick = 0) :
    (0 : Int) ∉ (a.Tick spec now).1.beatTimes := by
  rw [FrequencyAnalysis.Tick_beatTimes a spec now hn,
    FrequencyAnalysis.detectBeat_of_trigger a spec now htrig, hc]
  apply FrequencyAnalysis.pruneLoop_no_zero now 10000 a.beatTimes [tickToInt now] h2 (by omega)
    hsorted hnonneg
  intro h
  have h0 : tickToInt now = 0 := (List.mem_singleton.mp h).symm
  have := tickToInt_eq_zero now h2 h0
  omega

theorem Tick_prunes_zero_witness :
    twoBeatTracker.enableNormalize = false ∧ twoBeatTracker.beatTrackCutoff = 10000 ∧
    10001 ≤ 10001 ∧ 10001 < 2 ^ 32 ∧
    (0 : Int) ∈ twoBeatTracker.beatTimes ∧
    (0 : Int) ∉ (twoBeatTracker.Tick [1 / 2] 10001).1.beatTimes :=
  ⟨rfl, rfl, by decide, by decide, by decide,
    Tick_prunes_zero twoBeatTracker [1 / 2] 10001 rfl rfl (by decide) (by decide) (by decide)
      (by decide) ⟨by norm_num [twoBeatTracker, trackerStart, FrequencyAnalysis.init, specAt],
        rfl, rfl⟩⟩

/-- C9: for a queue of at least 2 beat times whose newest (back) and oldest
(front) entries differ, with the `int` difference `newest - oldest` in the
range of `int`, the BPM estimate is
`60000 / ((newest - oldest) / (count - 1))`; for a queue of fewer than 2
entries it is 0; for the queue `[0, 500, 1000, 1500]` it is 120. -/
theorem bpmEstimate_eq (q : List Int) (oldest newest : Int) :
    (2 ≤ q.length → q.head? = some oldest → q.getLast? = some newest → newest ≠ oldest →
      -2 ^ 31 ≤ newest - oldest → newest - oldest < 2 ^ 31 →
      FrequencyAnalysis.bpmEstimate q
        = some (60000 / (((newest : ℚ) - (oldest : ℚ)) / ((q.length : ℚ) - 1)))) ∧
    (q.length < 2 → FrequencyAnalysis.bpmEstimate q = some 0) ∧
    FrequencyAnalysis.bpmEstimate [0, 500, 1000, 1500] = some 120 := by
  refine ⟨?_, ?_, ?_⟩
  · intro h2 hf hb hne hlo hhi
    have hlen : ((q.length - 1 : Nat) : ℚ) = (q.length : ℚ) - 1 := by
      rw [Nat.cast_sub (by omega)]
      simp
    have hden : (q.length : ℚ) - 1 ≠ 0 := by
      have : (2 : ℚ) ≤ (q.length : ℚ) := by exact_mod_cast h2
      intro h
      linarith
    have hnum : ((newest : ℚ) - (oldest : ℚ)) ≠ 0 := by
      intro h
      apply hne
      have : (newest : ℚ) = (oldest : ℚ) := by linarith
      exact_mod_cast this
    unfold FrequencyAnalysis.bpmEstimate
    rw [if_pos h2]
    simp only [List.getLastD_eq_getLast?, List.headD_eq_head?_getD, hf, hb, Option.getD_some]
    rw [wrapInt32_of_range _ hlo hhi, hlen]
    push_cast
    rw [if_neg (div_ne_zero hnum hden)]
  · intro h
    unfold FrequencyAnalysis.bpmEstimate
    rw [if_neg (by omega)]
  · decide!

theorem bpmEstimate_eq_witness :
    2 ≤ [(0 : Int), 500, 1000, 1500].length ∧ (1500 : Int) ≠ 0 ∧
    FrequencyAnalysis.bpmEstimate [0, 500, 1000, 1500]
      = some (60000 / ((((1500 : Int) : ℚ) - ((0 : Int) : ℚ))
          / ((([(0 : Int), 500, 1000, 1500].length : Nat) : ℚ) - 1))) :=
  ⟨by decide, by decide,
    (bpmEstimate_eq [0, 500, 1000, 1500] 0 1500).1 (by decide) rfl rfl (by decide) (by decide)
      (by decide)⟩

/-- C10 (the claim fails): a paused tracker with normalization off whose beat
of clock value 1000 is still active is unpaused with 'P' at clock value 1100;
`musicStartTick` becomes 1100, but `beatLastTick` stays 1000 and the queue
still holds the beat. -/
theorem OnKeyCharacter_keeps_tracker :
    pausedAfterBeat.paused = true ∧ pausedAfterBeat.enableNormalize = false ∧
    pausedAfterBeat.musicStartTick = 0 ∧
    (pausedAfterBeat.OnKeyCharacter 80 1100).paused = false ∧
    (pausedAfterBeat.OnKeyCharacter 80 1100).musicStartTick = 1100 ∧
    (pausedAfterBeat.OnKeyCharacter 80 1100).beatLastTick = 1000 ∧
    (pausedAfterBeat.OnKeyCharacter 80 1100).beatLastTick ≠ 0 ∧
    (pausedAfterBeat.OnKeyCharacter 80 1100).beatTimes ≠ [] := by
  decide!

/-- C10 (amended): for every tracker state and clock value, an unpause with
'P' or 'p' while normalization is off and `musicStartTick` is 0, and a switch
of normalization to off with 'N' or 'n' while the song is playing, set
`musicStartTick` to the clock value (as an `int`, the value itself below
`2 ^ 31`) and leave `beatLastTick` and `beatIgnoreLastTick` as they were. -/
theorem OnKeyCharacter_reset (a : FrequencyAnalysis) (key : Int) (now : Nat) :
    ((key = 80 ∨ key = 112) → a.paused = true → a.enableNormalize = false →
      a.musicStartTick = 0 →
      (a.OnKeyCharacter key now).paused = false ∧
      (a.OnKeyCharacter key now).musicStartTick = tickToInt now ∧
      (a.OnKeyCharacter key now).beatLastTick = a.beatLastTick ∧
      (a.OnKeyCharacter key now).beatIgnoreLastTick = a.beatIgnoreLastTick) ∧
    ((key = 78 ∨ key = 110) → a.enableNormalize = true → a.paused = false →
      (a.OnKeyCharacter key now).enableNormalize = false ∧
      (a.OnKeyCharacter key now).musicStartTick = tickToInt now ∧
      (a.OnKeyCharacter key now).beatLastTick = a.beatLastTick ∧
      (a.OnKeyCharacter key now).beatIgnoreLastTick = a.beatIgnoreLastTick) ∧
    (now < 2 ^ 31 → tickToInt now = (now : Int)) := by
  refine ⟨?_, ?_, tickToInt_of_lt now⟩
  · intro hk hp hn hm
    rcases hk with rfl | rfl <;>
      simp [FrequencyAnalysis.OnKeyCharacter, hp, hn, hm]
  · intro hk hn hp
    rcases hk with rfl | rfl <;>
      simp [FrequencyAnalysis.OnKeyCharacter, hp, hn]

theorem OnKeyCharacter_reset_witness :
    ((80 : Int) = 80 ∨ (80 : Int) = 112) ∧ pausedAfterBeat.paused = true ∧
    pausedAfterBeat.enableNormalize = false ∧ pausedAfterBeat.musicStartTick = 0 ∧
    (pausedAfterBeat.OnKeyCharacter 80 1100).paused = false ∧
    (pausedAfterBeat.OnKeyCharacter 80 1100).musicStartTick = tickToInt 1100 ∧
    (pausedAfterBeat.OnKeyCharacter 80 1100).beatLastTick = pausedAfterBeat.beatLastTick ∧
    (pausedAfterBeat.OnKeyCharacter 80 1100).beatIgnoreLastTick
      = pausedAfterBeat.beatIgnoreLastTick :=
  ⟨Or.inl rfl, rfl, rfl, rfl,
    (OnKeyCharacter_reset pausedAfterBeat 80 1100).1 (Or.inl rfl) rfl rfl rfl⟩

/-- C11: with normalization enabled, for a spectrum frame `spec` (the mean of
the two channels) of non-negative magnitudes whose maximum is `m`: when `m` is
not zero, `DrawScene` replaces every magnitude `v` by `v / m` and every
resulting value lies in `[0, 1]`; when `m` is zero the frame is left as it
is. The frame `[0.1, 0.4, 0.2]` becomes `[0.25, 1, 0.5]`. -/
theorem DrawScene_normalizes (a : FrequencyAnalysis) (specLeft specRight spec : List ℚ)
    (now : Nat) (m : ℚ)
    (hn : a.enableNormalize = true)
    (hspec : FrequencyAnalysis.averageSpectrum specLeft specRight = spec)
    (hnonneg : ∀ v ∈ spec, 0 ≤ v) (hm : m ∈ spec) (hmax : ∀ v ∈ spec, v ≤ m) :
    (m ≠ 0 →
      (a.DrawScene specLeft specRight now).2.2 = spec.map (fun v => v / m) ∧
      ∀ w ∈ (a.DrawScene specLeft specRight now).2.2, 0 ≤ w ∧ w ≤ 1) ∧
    (m = 0 → (a.DrawScene specLeft specRight now).2.2 = spec) ∧
    (FrequencyAnalysis.init.DrawScene [1 / 10, 4 / 10, 2 / 10] [1 / 10, 4 / 10, 2 / 10] 0).2.2
      = [1 / 4, 1, 1 / 2] := by
  have hmv : FrequencyAnalysis.maxVol spec = m := FrequencyAnalysis.maxVol_eq_of_max spec m hm hmax
  refine ⟨?_, ?_, by decide!⟩
  · intro hm0
    have hd : (a.DrawScene specLeft specRight now).2.2 = spec.map (fun v => v / m) := by
      rw [FrequencyAnalysis.DrawScene_spec, hspec, FrequencyAnalysis.normalizeSpectrum, hmv,
        if_pos ⟨hn, hm0⟩]
    refine ⟨hd, ?_⟩
    intro w hw
    rw [hd] at hw
    obtain ⟨v, hv, hvw⟩ := List.mem_map.mp hw
    have hmpos : 0 < m := lt_of_le_of_ne (hnonneg m hm) (Ne.symm hm0)
    rw [← hvw]
    exact ⟨div_nonneg (hnonneg v hv) hmpos.le, (div_le_one hmpos).mpr (hmax v hv)⟩
  · intro hm0
    rw [FrequencyAnalysis.DrawScene_spec, hspec, FrequencyAnalysis.normalizeSpectrum, hmv,
      if_neg (fun h => h.2 hm0)]

theorem DrawScene_normalizes_witness :
    FrequencyAnalysis.init.enableNormalize = true ∧
    FrequencyAnalysis.averageSpectrum [1 / 10, 3 / 10, 1 / 5] [1 / 10, 1 / 2, 1 / 5]
      = [1 / 10, 2 / 5, 1 / 5] ∧
    (2 / 5 : ℚ) ≠ 0 ∧
    (FrequencyAnalysis.init.DrawScene [1 / 10, 3 / 10, 1 / 5] [1 / 10, 1 / 2, 1 / 5] 1000).2.2
      = [1 / 10, 2 / 5, 1 / 5].map (fun v => v / (2 / 5)) :=
  ⟨rfl, by decide!, by decide!,
    ((DrawScene_normalizes FrequencyAnalysis.init [1 / 10, 3 / 10, 1 / 5] [1 / 10, 1 / 2, 1 / 5]
      [1 / 10, 2 / 5, 1 / 5] 1000 (2 / 5) rfl (by decide!) (by decide!) (by decide!)
      (by decide!)).1 (by decide!)).1⟩

/-- C12: for every tracker state, spectrum and clock value, a Tick with
normalization enabled leaves `beatLastTick`, `beatIgnoreLastTick` and the queue
`beatTimes` unchanged (the whole tracker is unchanged) and shows no beat; so
does a pass of `DrawScene`, whatever the two spectra. -/
theorem Tick_normalize_unchanged (a : FrequencyAnalysis) (spec specLeft specRight : List ℚ)
    (now : Nat) (hn : a.enableNormalize = true) :
    (a.Tick spec now).1.beatLastTick = a.beatLastTick ∧
    (a.Tick spec now).1.beatIgnoreLastTick = a.beatIgnoreLastTick ∧
    (a.Tick spec now).1.beatTimes = a.beatTimes ∧
    (a.Tick spec now).1 = a ∧
    (a.Tick spec now).2.beat = false ∧
    (a.DrawScene specLeft specRight now).1 = a := by
  have h := FrequencyAnalysis.Tick_of_normalize a spec now hn
  refine ⟨by rw [h], by rw [h], by rw [h], h, ?_, ?_⟩
  · simp [FrequencyAnalysis.Tick, hn]
  · rw [FrequencyAnalysis.DrawScene_tracker]
    exact FrequencyAnalysis.Tick_of_normalize a _ now hn

theorem Tick_normalize_unchanged_witness :
    FrequencyAnalysis.init.enableNormalize = true ∧
    (FrequencyAnalysis.init.Tick [9 / 10] 1000).1.beatTimes = FrequencyAnalysis.init.beatTimes ∧
    (FrequencyAnalysis.init.Tick [9 / 10] 1000).1.beatLastTick
      = FrequencyAnalysis.init.beatLastTick :=
  ⟨rfl, (Tick_normalize_unchanged FrequencyAnalysis.init [9 / 10] [9 / 10] [9 / 10] 1000 rfl).2.2.1,
    (Tick_normalize_unchanged FrequencyAnalysis.init [9 / 10] [9 / 10] [9 / 10] 1000 rfl).1⟩

/-- C13: after every sequence of presses of the keys '1' (code 49) and '2'
(code 50) from the constructor's state, `sampleSize` is a power of two
`2 ^ e` with `6 <= e <= 13`, so between 64 and 8192; a further '1' leaves
64 at 64 and halves every other size, a further '2' leaves 8192 at 8192 and
doubles every other size. -/
theorem sampleSize_power_of_two (keys : List (Int × Nat)) (now : Nat)
    (hkeys : ∀ k ∈ keys, k.1 = 49 ∨ k.1 = 50) :
    (∃ e : Nat, 6 ≤ e ∧ e ≤ 13 ∧ (FrequencyAnalysis.init.runKeys keys).sampleSize = 2 ^ e) ∧
    64 ≤ (FrequencyAnalysis.init.runKeys keys).sampleSize ∧
    (FrequencyAnalysis.init.runKeys keys).sampleSize ≤ 8192 ∧
    ((FrequencyAnalysis.init.runKeys keys).sampleSize = 64 →
      ((FrequencyAnalysis.init.runKeys keys).OnKeyCharacter 49 now).sampleSize = 64) ∧
    ((FrequencyAnalysis.init.runKeys keys).sampleSize ≠ 64 →
      2 * ((FrequencyAnalysis.init.runKeys keys).OnKeyCharacter 49 now).sampleSize
        = (FrequencyAnalysis.init.runKeys keys).sampleSize) ∧
    ((FrequencyAnalysis.init.runKeys keys).sampleSize = 8192 →
      ((FrequencyAnalysis.init.runKeys keys).OnKeyCharacter 50 now).sampleSize = 8192) ∧
    ((FrequencyAnalysis.init.runKeys keys).sampleSize ≠ 8192 →
      ((FrequencyAnalysis.init.runKeys keys).OnKeyCharacter 50 now).sampleSize
        = 2 * (FrequencyAnalysis.init.runKeys keys).sampleSize) := by
  have hinv := FrequencyAnalysis.runKeys_sampleSize_pow keys FrequencyAnalysis.init hkeys
    ⟨6, le_refl 6, by omega, rfl⟩
  obtain ⟨e, h6, h13, hs⟩ := hinv
  have hstep := FrequencyAnalysis.sampleSize_keys_of_pow
    (FrequencyAnalysis.init.runKeys keys) now e h6 h13 hs
  rw [hstep.1, hstep.2, hs]
  refine ⟨⟨e, h6, h13, rfl⟩, ?_⟩
  interval_cases e <;> decide

theorem sampleSize_power_of_two_witness :
    (∀ k ∈ [((50 : Int), (0 : Nat)), (50, 0), (49, 0)], k.1 = 49 ∨ k.1 = 50) ∧
    ∃ e : Nat, 6 ≤ e ∧ e ≤ 13 ∧
      (FrequencyAnalysis.init.runKeys [(50, 0), (50, 0), (49, 0)]).sampleSize = 2 ^ e :=
  ⟨by decide, (sampleSize_power_of_two [(50, 0), (50, 0), (49, 0)] 0 (by decide)).1⟩

/-- C14: starting from the constructor's state, with any sustain and
post-ignore durations and normalization on or off, after every sequence of
events (passes of `DrawScene` with any spectra and clock values, in any order
of time, and key presses, which may switch normalization) `beatLastTick` and
`beatIgnoreLastTick` are not both different from 0. -/
theorem windows_never_both_open (sustain postIgnore : Nat) (normalize : Bool)
    (events : List TrackerEvent) :
    ¬ ((({ FrequencyAnalysis.init with
            beatSustain := sustain, beatPostIgnore := postIgnore,
            enableNormalize := normalize } : FrequencyAnalysis).runEvents events).beatLastTick ≠ 0 ∧
        (({ FrequencyAnalysis.init with
            beatSustain := sustain, beatPostIgnore := postIgnore,
            enableNormalize := normalize } : FrequencyAnalysis).runEvents events).beatIgnoreLastTick
          ≠ 0) := by
  intro h
  rcases FrequencyAnalysis.runEvents_windows events
    ({ FrequencyAnalysis.init with
        beatSustain := sustain, beatPostIgnore := postIgnore,
        enableNormalize := normalize } : FrequencyAnalysis) (Or.inl rfl) with h1 | h1
  · exact h.1 h1
  · exact h.2 h1
